import Mathlib

/-!
Verification of the Dastavez collaborative-editor repository.

The server (Express + WebSocket handler) and the client presence rebuild are
embedded from the source.  The replicated-document core (update-record merge,
presence publish/expire, structural decode) lives in the yjs / y-websocket
libraries, of which the repository contains only the module declaration and
the call sites; those parts are modelled from the specification, as marked on
each definition.
-/

/-! ### Replicated document core (spec-modelled) -/

/-- Identifier of a content item: (originReplicaId, localCounter). -/
abbrev ItemId := Nat × Nat

/-- Modelled from the spec: a content item of the replicated sequence store
(the yjs item type is not part of the repository sources).  It carries its
unique identifier, the identifier of the item to its left at creation time
(none meaning the sequence-start sentinel), and its content unit. -/
structure Item where
  id : ItemId
  origin : Option ItemId
  content : Nat
deriving DecidableEq

/-- Modelled from the spec: an update record bundles content-item creations
and tombstone markings, addressed by the identifiers they affect. -/
structure UpdateRecord where
  inserts : Finset Item
  deletes : Finset ItemId
deriving DecidableEq

/-- Modelled from the spec: the replicated sequence store, an item set plus
the set of tombstoned identifiers (deletion never removes an item). -/
structure Store where
  items : Finset Item
  tombs : Finset ItemId
deriving DecidableEq

def Store.emptyStore : Store := ⟨∅, ∅⟩

/-- Modelled from the spec: merging a remote update record into the store
(yjs applyUpdate; only its call sites are in the repository).  Insertions
and tombstone markings are accumulated set-wise, which is what makes the
merge idempotent and commutative. -/
def applyRemote (s : Store) (r : UpdateRecord) : Store :=
  ⟨s.items ∪ r.inserts, s.tombs ∪ r.deletes⟩

/-- Applying a whole delivery sequence of update records in order. -/
def applyAll (s : Store) (l : List UpdateRecord) : Store :=
  l.foldl applyRemote s

/-- Injection of an optional origin into the naturals, for the tie-break key. -/
def encOpt : Option ItemId → Nat
  | none => 0
  | some p => Nat.pair p.1 p.2 + 1

/-- Injection of an item into the naturals: lexicographic key
(replicaId, counter, origin, content) packed with the Cantor pairing. -/
def enc (it : Item) : Nat :=
  Nat.pair it.id.1 (Nat.pair it.id.2 (Nat.pair (encOpt it.origin) it.content))

lemma encOpt_inj : Function.Injective encOpt := by
  intro a b h
  cases a with
  | none =>
    cases b with
    | none => rfl
    | some q => simp [encOpt] at h
  | some p =>
    cases b with
    | none => simp [encOpt] at h
    | some q =>
      simp only [encOpt, Nat.add_right_cancel_iff, Nat.pair_eq_pair] at h
      cases p; cases q; simp_all

lemma enc_inj : Function.Injective enc := by
  intro a b h
  obtain ⟨⟨ar, ac⟩, ao, av⟩ := a
  obtain ⟨⟨br, bc⟩, bo, bv⟩ := b
  simp only [enc, Nat.pair_eq_pair] at h
  obtain ⟨h1, h2, h3, h4⟩ := h
  have ho := encOpt_inj h3
  simp_all

/-- Descending order on items by their packed key: among concurrent siblings
the larger (replicaId, counter) key comes first, the deterministic,
content-independent tie-break of the spec. -/
def itemAfter (a b : Item) : Prop := enc b ≤ enc a

instance : DecidableRel itemAfter :=
  fun a b => inferInstanceAs (Decidable (enc b ≤ enc a))

instance : IsTrans Item itemAfter :=
  ⟨fun _ _ _ hab hbc => le_trans hbc hab⟩

instance : IsAntisymm Item itemAfter :=
  ⟨fun _ _ hab hba => enc_inj (le_antisymm hba hab)⟩

instance : IsTotal Item itemAfter :=
  ⟨fun a b => (le_total (enc b) (enc a)).imp id id⟩

/-- Canonical sorted listing of a finite item set. -/
def sortItems (s : Finset Item) : List Item := s.sort itemAfter

/-- The children of a given origin, in tie-break order. -/
def childList (items : Finset Item) (parent : Option ItemId) : List Item :=
  sortItems (items.filter (fun it => it.origin = parent))

/-- Modelled from the spec: depth-first walk of the origin forest producing
the total order over content items.  The fuel bounds the walk on arbitrary
item sets; on an acyclic origin forest a fuel of one more than the number of
items reaches every item, since every recursive step consumes one item. -/
def linAux (items : Finset Item) : Nat → List Item → List Item
  | 0, _ => []
  | _ + 1, [] => []
  | f + 1, c :: cs =>
      c :: (linAux items f (childList items (some c.id)) ++ linAux items f cs)

/-- Modelled from the spec: the deterministic linearization of an item set,
recoverable from (origin chain, identifier) alone. -/
def linearize (s : Finset Item) : List Item :=
  linAux s (s.card + 1) (childList s none)

/-- Modelled from the spec: the materialized document sequence, i.e. the
linearized non-tombstoned content. -/
def materialize (s : Store) : List Nat :=
  ((linearize s.items).filter (fun it => decide (it.id ∉ s.tombs))).map Item.content

lemma Store.ext_eq (a b : Store) (h1 : a.items = b.items) (h2 : a.tombs = b.tombs) :
    a = b := by
  cases a; cases b; simp_all

lemma applyAll_eq (l : List UpdateRecord) (s : Store) :
    applyAll s l =
      ⟨s.items ∪ l.toFinset.biUnion (fun r => r.inserts),
       s.tombs ∪ l.toFinset.biUnion (fun r => r.deletes)⟩ := by
  induction l generalizing s with
  | nil =>
    apply Store.ext_eq <;> simp [applyAll]
  | cons r t ih =>
    have hstep : applyAll s (r :: t) = applyAll (applyRemote s r) t := rfl
    rw [hstep, ih]
    apply Store.ext_eq <;>
      simp [applyRemote, List.toFinset_cons, Finset.biUnion_insert, Finset.union_assoc]

/-- Claim C1: for every finite set of update records R, every application
order and every pattern of duplicated delivery, replicas that apply the full
set R materialize the identical sequence; applying a record twice equals
applying it once, and applying two records in either order yields the same
store. -/
theorem applyRemote_convergent_idempotent_commutative
    (s : Store) (R : Finset UpdateRecord) (l1 l2 : List UpdateRecord)
    (r a b : UpdateRecord)
    (h1 : l1.toFinset = R) (h2 : l2.toFinset = R) :
    materialize (applyAll s l1) = materialize (applyAll s l2)
    ∧ applyRemote (applyRemote s r) r = applyRemote s r
    ∧ applyRemote (applyRemote s a) b = applyRemote (applyRemote s b) a := by
  refine ⟨?_, ?_, ?_⟩
  · have hs : applyAll s l1 = applyAll s l2 := by
      rw [applyAll_eq, applyAll_eq, h1, h2]
    exact congrArg materialize hs
  · apply Store.ext_eq
    · show (s.items ∪ r.inserts) ∪ r.inserts = s.items ∪ r.inserts
      rw [Finset.union_assoc, Finset.union_self]
    · show (s.tombs ∪ r.deletes) ∪ r.deletes = s.tombs ∪ r.deletes
      rw [Finset.union_assoc, Finset.union_self]
  · apply Store.ext_eq
    · show (s.items ∪ a.inserts) ∪ b.inserts = (s.items ∪ b.inserts) ∪ a.inserts
      rw [Finset.union_right_comm]
    · show (s.tombs ∪ a.deletes) ∪ b.deletes = (s.tombs ∪ b.deletes) ∪ a.deletes
      rw [Finset.union_right_comm]

/-- A sample insert record: item A of replica 1 at the sequence start. -/
def recA : UpdateRecord := ⟨{⟨(1, 1), none, 65⟩}, ∅⟩

/-- A sample insert record: item B of replica 2, whose origin is item A. -/
def recB : UpdateRecord := ⟨{⟨(2, 1), some (1, 1), 66⟩}, ∅⟩

/-- A sample tombstone record deleting item A. -/
def recDel : UpdateRecord := ⟨∅, {(1, 1)}⟩

/-- One delivery order of the record set, with a duplicated delivery. -/
def deliveryA : List UpdateRecord := [recA, recB, recA]

/-- Another delivery order of the same record set. -/
def deliveryB : List UpdateRecord := [recB, recA]

/-- Witness for C1 at a concrete input: two records delivered in different
orders, once with a duplicate, yield the same materialized sequence. -/
theorem applyRemote_convergent_idempotent_commutative_witness :
    materialize (applyAll Store.emptyStore deliveryA)
      = materialize (applyAll Store.emptyStore deliveryB)
    ∧ applyRemote (applyRemote Store.emptyStore recA) recA
        = applyRemote Store.emptyStore recA
    ∧ applyRemote (applyRemote Store.emptyStore recA) recDel
        = applyRemote (applyRemote Store.emptyStore recDel) recA :=
  applyRemote_convergent_idempotent_commutative Store.emptyStore
    deliveryA.toFinset deliveryA deliveryB recA recA recDel
    rfl
    (by
      apply Finset.ext
      intro x
      simp only [deliveryA, deliveryB, List.mem_toFinset, List.mem_cons,
        List.not_mem_nil, or_false]
      tauto)

/-! ### Server state and handlers (embedded from the server source) -/

/-- The server-side view of a yjs document; the server treats its content as
opaque and only creates, stores, and destroys it.  A new document is empty. -/
structure YDoc where
  content : List Nat
deriving DecidableEq

def YDoc.new : YDoc := ⟨[]⟩

/-- One documentMetadata record: title, lastModified, collaborators. -/
structure Metadata where
  title : String
  lastModified : Nat
  collaborators : Finset String
deriving DecidableEq

/-- The two in-memory maps of the server: documents and documentMetadata,
both keyed by the document identifier. -/
structure ServerState where
  docs : String → Option YDoc
  meta : String → Option Metadata

/-- Point update of a map, as performed by Map.set and Map.delete. -/
def upd {α : Type} (f : String → α) (k : String) (v : α) : String → α :=
  fun x => if x = k then v else f x

/-- The state at server start: both maps empty. -/
def initState : ServerState := ⟨fun _ => none, fun _ => none⟩

/-- The per-document body of the GET document response. -/
structure DocInfo where
  id : String
  title : String
  lastModified : Nat
  collaboratorCount : Nat
deriving DecidableEq

/-- An HTTP response of the GET document endpoint: status and optional body. -/
structure GetResp where
  status : Nat
  info : Option DocInfo
deriving DecidableEq

/-- The body of the POST document response. -/
structure PostResp where
  id : String
  title : String
  url : String
deriving DecidableEq

/-- GET /api/documents/:docId — 404 when the metadata record is missing,
otherwise the catalog entry; the state is never changed. -/
def getDocument (s : ServerState) (docId : String) : GetResp × ServerState :=
  match s.meta docId with
  | none => (⟨404, none⟩, s)
  | some m =>
      (⟨200, some ⟨docId, m.title, m.lastModified, m.collaborators.card⟩⟩, s)

/-- POST /api/documents — creates a fresh Y.Doc under the freshly drawn
identifier and initializes its metadata (title defaulted to
"Untitled Document", lastModified now, no collaborators). -/
def postDocument (s : ServerState) (docId : String) (titleOpt : Option String)
    (now : Nat) (protocol hostName : String) : PostResp × ServerState :=
  let title := titleOpt.getD "Untitled Document"
  (⟨docId, title, protocol ++ "://" ++ hostName ++ "/doc/" ++ docId⟩,
   ⟨upd s.docs docId (some YDoc.new),
    upd s.meta docId (some ⟨title, now, ∅⟩)⟩)

/-- PUT /api/documents/:docId/title — 404 when the metadata record is
missing, otherwise sets the title and refreshes lastModified. -/
def putTitle (s : ServerState) (docId title : String) (now : Nat) :
    Nat × ServerState :=
  match s.meta docId with
  | none => (404, s)
  | some m =>
      (200, ⟨s.docs, upd s.meta docId (some ⟨title, now, m.collaborators⟩)⟩)

/-- DELETE /api/documents/:docId — 404 when the document is missing,
otherwise removes the document and its metadata. -/
def deleteDocument (s : ServerState) (docId : String) : Nat × ServerState :=
  if (s.docs docId).isSome then
    (200, ⟨upd s.docs docId none, upd s.meta docId none⟩)
  else (404, s)

/-- The ensure-document block of the WebSocket connection handler: when no
document is stored under the name, a fresh Y.Doc is created, and metadata is
initialized if (and only if) it does not exist either. -/
def ensureDoc (s : ServerState) (docName : String) (now : Nat) : ServerState :=
  if (s.docs docName).isSome then s
  else if (s.meta docName).isSome then
    ⟨upd s.docs docName (some YDoc.new), s.meta⟩
  else
    ⟨upd s.docs docName (some YDoc.new),
     upd s.meta docName (some ⟨"Untitled Document", now, ∅⟩)⟩

/-- The add-to-collaborators block of the connection handler: a freshly
drawn collaborator identifier is added to the metadata record, when one
exists. -/
def addCollaborator (s : ServerState) (docName collabId : String) :
    ServerState :=
  match s.meta docName with
  | none => s
  | some m =>
      ⟨s.docs, upd s.meta docName (some ⟨m.title, m.lastModified, insert collabId m.collaborators⟩)⟩

/-- The WebSocket connection handler: ensure the document exists, register
the collaborator, then hand the stored Y.Doc to setupWSConnection.  The
returned flag records that the sync setup was entered with a stored document
(the branch passing an existing doc); the handler has no rejecting branch. -/
def wsConnect (s : ServerState) (docName collabId : String) (now : Nat) :
    Bool × ServerState :=
  (((addCollaborator (ensureDoc s docName now) docName collabId).docs
      docName).isSome,
   addCollaborator (ensureDoc s docName now) docName collabId)

/-- The close handler registered per connection: the connection's
collaborator identifier is removed from the metadata record.  The source
mutates the record captured at connect time, which is the record stored in
the map whenever the document was not deleted in between. -/
def wsClose (s : ServerState) (docName collabId : String) : ServerState :=
  match s.meta docName with
  | none => s
  | some m =>
      ⟨s.docs, upd s.meta docName (some ⟨m.title, m.lastModified, m.collaborators.erase collabId⟩)⟩

/-- The ydoc update listener: any accepted content delta refreshes the
document's lastModified timestamp. -/
def docUpdate (s : ServerState) (docName : String) (now : Nat) : ServerState :=
  match s.meta docName with
  | none => s
  | some m =>
      ⟨s.docs, upd s.meta docName (some ⟨m.title, now, m.collaborators⟩)⟩

/-- The operations the server reacts to: the REST endpoints, the WebSocket
connection events, and the content-update event. -/
inductive Op
  | post (docId : String) (title : Option String) (now : Nat)
  | getOne (docId : String)
  | putT (docId title : String) (now : Nat)
  | del (docId : String)
  | connect (docName collabId : String) (now : Nat)
  | close (docName collabId : String)
  | update (docName : String) (now : Nat)
deriving DecidableEq

/-- The state transition of one server operation. -/
def step (s : ServerState) : Op → ServerState
  | .post d t n => (postDocument s d t n "http" "localhost:1234").2
  | .getOne d => (getDocument s d).2
  | .putT d t n => (putTitle s d t n).2
  | .del d => (deleteDocument s d).2
  | .connect d c n => (wsConnect s d c n).2
  | .close d c => wsClose s d c
  | .update d n => docUpdate s d n

/-- Does the operation delete this document identifier? -/
def isDeleteOf : Op → String → Bool
  | .del d2, d => d2 == d
  | _, _ => false

/-- Is the operation a title change, an accepted content delta, or a
(re)creation addressed to this document identifier — the operations that
write the lastModified timestamp? -/
def touchesTimestamp : Op → String → Bool
  | .putT d2 _ _, d => d2 == d
  | .update d2 _, d => d2 == d
  | .post d2 _ _, d => d2 == d
  | _, _ => false

lemma getDocument_state (s : ServerState) (d : String) : (getDocument s d).2 = s := by
  cases h : s.meta d <;> simp [getDocument, h]

lemma ensureDoc_meta_isSome (s : ServerState) (name : String) (now : Nat)
    (d : String) (h : (s.meta d).isSome = true) :
    ((ensureDoc s name now).meta d).isSome = true := by
  unfold ensureDoc
  split
  case isTrue h1 => exact h
  case isFalse h1 =>
    split
    case isTrue h2 => exact h
    case isFalse h2 =>
      by_cases hd : d = name <;> simp [upd, hd, h]

lemma addCollaborator_meta_isSome (s : ServerState) (name cid d : String)
    (h : (s.meta d).isSome = true) :
    ((addCollaborator s name cid).meta d).isSome = true := by
  cases hsm : s.meta name with
  | none => simpa [addCollaborator, hsm] using h
  | some mm =>
      by_cases hd : d = name <;> simp [addCollaborator, hsm, upd, hd, h]

lemma wsClose_meta_isSome (s : ServerState) (name cid d : String)
    (h : (s.meta d).isSome = true) :
    ((wsClose s name cid).meta d).isSome = true := by
  cases hsm : s.meta name with
  | none => simpa [wsClose, hsm] using h
  | some mm =>
      by_cases hd : d = name <;> simp [wsClose, hsm, upd, hd, h]

lemma docUpdate_meta_isSome (s : ServerState) (name : String) (now : Nat)
    (d : String) (h : (s.meta d).isSome = true) :
    ((docUpdate s name now).meta d).isSome = true := by
  cases hsm : s.meta name with
  | none => simpa [docUpdate, hsm] using h
  | some mm =>
      by_cases hd : d = name <;> simp [docUpdate, hsm, upd, hd, h]

lemma step_meta_isSome (s : ServerState) (d : String) (op : Op)
    (h : (s.meta d).isSome = true) (hop : isDeleteOf op d = false) :
    ((step s op).meta d).isSome = true := by
  cases op with
  | post d2 t n => by_cases hd : d = d2 <;> simp [step, postDocument, upd, hd, h]
  | getOne d2 => simpa [step, getDocument_state] using h
  | putT d2 t n =>
      cases hsm : s.meta d2 with
      | none => simpa [step, putTitle, hsm] using h
      | some mm =>
          by_cases hd : d = d2 <;> simp [step, putTitle, hsm, upd, hd, h]
  | del d2 =>
      have hne : d2 ≠ d := by simpa [isDeleteOf] using hop
      have hne2 : ¬(d = d2) := fun hh => hne hh.symm
      by_cases hd2 : (s.docs d2).isSome <;>
        simp [step, deleteDocument, hd2, upd, hne2, h]
  | connect d2 c n =>
      exact addCollaborator_meta_isSome _ _ _ _ (ensureDoc_meta_isSome _ _ _ _ h)
  | close d2 c => exact wsClose_meta_isSome _ _ _ _ h
  | update d2 n => exact docUpdate_meta_isSome _ _ _ _ h

/-- Claim C2: the metadata record of a document is created on document
creation, mutated on title change or content update, and removed exactly by
the DELETE endpoint, which removes both the document and its metadata; no
other operation removes metadata. -/
theorem metadata_lifecycle
    (s : ServerState) (d titleNew : String) (tOpt : Option String)
    (n1 n2 n3 : Nat) (proto hostName : String) (m : Metadata) (y : YDoc)
    (op : Op) (hm : s.meta d = some m) (hy : s.docs d = some y)
    (hop : isDeleteOf op d = false) :
    ((postDocument s d tOpt n1 proto hostName).2).meta d
        = some ⟨tOpt.getD "Untitled Document", n1, ∅⟩
    ∧ ((putTitle s d titleNew n2).2).meta d = some ⟨titleNew, n2, m.collaborators⟩
    ∧ (docUpdate s d n3).meta d = some ⟨m.title, n3, m.collaborators⟩
    ∧ ((deleteDocument s d).2).meta d = none
    ∧ ((deleteDocument s d).2).docs d = none
    ∧ ((step s op).meta d).isSome = true := by
  refine ⟨?_, ?_, ?_, ?_, ?_, ?_⟩
  · simp [postDocument, upd]
  · simp [putTitle, hm, upd]
  · simp [docUpdate, hm, upd]
  · simp [deleteDocument, hy, upd]
  · simp [deleteDocument, hy, upd]
  · exact step_meta_isSome s d op (by simp [hm]) hop

/-- A sample reachable state holding one document "doc1" titled "T". -/
def sampleState : ServerState :=
  (postDocument initState "doc1" (some "T") 5 "http" "localhost").2

/-- Witness for C2 on the sample state. -/
theorem metadata_lifecycle_witness :
    ((postDocument sampleState "doc1" none 7 "p" "h").2).meta "doc1"
        = some ⟨(none : Option String).getD "Untitled Document", 7, ∅⟩
    ∧ ((putTitle sampleState "doc1" "New" 8).2).meta "doc1"
        = some ⟨"New", 8, (∅ : Finset String)⟩
    ∧ (docUpdate sampleState "doc1" 9).meta "doc1"
        = some ⟨"T", 9, (∅ : Finset String)⟩
    ∧ ((deleteDocument sampleState "doc1").2).meta "doc1" = none
    ∧ ((deleteDocument sampleState "doc1").2).docs "doc1" = none
    ∧ ((step sampleState (Op.getOne "doc1")).meta "doc1").isSome = true :=
  metadata_lifecycle sampleState "doc1" "New" none 7 8 9 "p" "h"
    ⟨"T", 5, ∅⟩ YDoc.new (Op.getOne "doc1") rfl rfl rfl

lemma ensureDoc_meta_eq (s : ServerState) (name : String) (now : Nat)
    (d : String) (m : Metadata) (hm : s.meta d = some m) :
    (ensureDoc s name now).meta d = some m := by
  unfold ensureDoc
  split
  case isTrue h1 => exact hm
  case isFalse h1 =>
    split
    case isTrue h2 => exact hm
    case isFalse h2 =>
      by_cases hd : d = name
      · exact absurd (by rw [← hd, hm]; rfl) h2
      · simpa [upd, hd] using hm

lemma addCollaborator_meta_lastModified (s : ServerState) (name cid d : String) :
    ((addCollaborator s name cid).meta d).map Metadata.lastModified
      = (s.meta d).map Metadata.lastModified := by
  cases hsm : s.meta name with
  | none => simp [addCollaborator, hsm]
  | some mm =>
      by_cases hd : d = name
      · subst hd; simp [addCollaborator, hsm, upd]
      · simp [addCollaborator, hsm, upd, hd]

lemma wsClose_meta_lastModified (s : ServerState) (name cid d : String) :
    ((wsClose s name cid).meta d).map Metadata.lastModified
      = (s.meta d).map Metadata.lastModified := by
  cases hsm : s.meta name with
  | none => simp [wsClose, hsm]
  | some mm =>
      by_cases hd : d = name
      · subst hd; simp [wsClose, hsm, upd]
      · simp [wsClose, hsm, upd, hd]

/-- Claim C3: the lastModified timestamp of an existing document is set to
the current time by every accepted title change and every accepted content
delta, and no operation other than these (and a recreation under the same,
in practice freshly drawn, identifier) changes it — it is either preserved
or gone with the whole record on deletion. -/
theorem lastModified_update_policy
    (s : ServerState) (d titleNew : String) (now : Nat) (m : Metadata)
    (op : Op) (hm : s.meta d = some m) (hop : touchesTimestamp op d = false) :
    (((putTitle s d titleNew now).2).meta d).map Metadata.lastModified = some now
    ∧ ((docUpdate s d now).meta d).map Metadata.lastModified = some now
    ∧ (((step s op).meta d).map Metadata.lastModified = none
       ∨ ((step s op).meta d).map Metadata.lastModified = some m.lastModified) := by
  refine ⟨by simp [putTitle, hm, upd], by simp [docUpdate, hm, upd], ?_⟩
  cases op with
  | post d2 t n =>
      have hne2 : ¬(d = d2) := fun hh => by simp [touchesTimestamp, hh] at hop
      right
      simp [step, postDocument, upd, hne2, hm]
  | getOne d2 => right; simp [step, getDocument_state, hm]
  | putT d2 t n =>
      have hne2 : ¬(d = d2) := fun hh => by simp [touchesTimestamp, hh] at hop
      right
      cases hsm : s.meta d2 with
      | none => simp [step, putTitle, hsm, hm]
      | some mm => simp [step, putTitle, hsm, upd, hne2, hm]
  | del d2 =>
      by_cases hd2 : (s.docs d2).isSome
      · by_cases hdd : d = d2
        · left; simp [step, deleteDocument, hd2, upd, hdd]
        · right; simp [step, deleteDocument, hd2, upd, hdd, hm]
      · right; simp [step, deleteDocument, hd2, hm]
  | connect d2 c n =>
      right
      show ((addCollaborator (ensureDoc s d2 n) d2 c).meta d).map
          Metadata.lastModified = some m.lastModified
      rw [addCollaborator_meta_lastModified, ensureDoc_meta_eq s d2 n d m hm]
      rfl
  | close d2 c =>
      right
      show ((wsClose s d2 c).meta d).map Metadata.lastModified
          = some m.lastModified
      rw [wsClose_meta_lastModified, hm]
      rfl
  | update d2 n =>
      have hne2 : ¬(d = d2) := fun hh => by simp [touchesTimestamp, hh] at hop
      right
      cases hsm : s.meta d2 with
      | none => simp [step, docUpdate, hsm, hm]
      | some mm => simp [step, docUpdate, hsm, upd, hne2, hm]

/-- Witness for C3 on the sample state, the frame case at a close event. -/
theorem lastModified_update_policy_witness :
    (((putTitle sampleState "doc1" "New" 11).2).meta "doc1").map
        Metadata.lastModified = some 11
    ∧ ((docUpdate sampleState "doc1" 11).meta "doc1").map
        Metadata.lastModified = some 11
    ∧ (((step sampleState (Op.close "doc1" "c9")).meta "doc1").map
          Metadata.lastModified = none
       ∨ ((step sampleState (Op.close "doc1" "c9")).meta "doc1").map
          Metadata.lastModified = some (Metadata.lastModified ⟨"T", 5, ∅⟩)) :=
  lastModified_update_policy sampleState "doc1" "New" 11 ⟨"T", 5, ∅⟩
    (Op.close "doc1" "c9") rfl rfl

/-- Claim C8: every REST request addressing an absent document identifier
(GET metadata, PUT title, DELETE) answers 404 and leaves the stored state
exactly as it was. -/
theorem rest_missing_doc_404
    (s : ServerState) (docId title : String) (now : Nat)
    (hdocs : s.docs docId = none) (hmeta : s.meta docId = none) :
    (getDocument s docId).1.status = 404 ∧ (getDocument s docId).2 = s
    ∧ (putTitle s docId title now).1 = 404 ∧ (putTitle s docId title now).2 = s
    ∧ (deleteDocument s docId).1 = 404 ∧ (deleteDocument s docId).2 = s := by
  refine ⟨?_, ?_, ?_, ?_, ?_, ?_⟩ <;>
    simp [getDocument, putTitle, deleteDocument, hdocs, hmeta]

/-- Witness for C8 at the empty server state. -/
theorem rest_missing_doc_404_witness :
    (getDocument initState "missing").1.status = 404
    ∧ (getDocument initState "missing").2 = initState
    ∧ (putTitle initState "missing" "t" 3).1 = 404
    ∧ (putTitle initState "missing" "t" 3).2 = initState
    ∧ (deleteDocument initState "missing").1 = 404
    ∧ (deleteDocument initState "missing").2 = initState :=
  rest_missing_doc_404 initState "missing" "t" 3 rfl rfl

/-- Claim C10: a WebSocket connection addressing a name with no stored
document is never rejected; a fresh empty Y.Doc is created under that name,
a metadata record titled "Untitled Document" is created since none exists,
and the sync setup proceeds with the stored document. -/
theorem ws_connect_creates_missing_doc
    (s : ServerState) (name cid : String) (now : Nat)
    (hd : s.docs name = none) (hm : s.meta name = none) :
    (wsConnect s name cid now).1 = true
    ∧ ((wsConnect s name cid now).2).docs name = some YDoc.new
    ∧ ((wsConnect s name cid now).2).meta name
        = some ⟨"Untitled Document", now, {cid}⟩ := by
  have hEnsure : ensureDoc s name now
      = ⟨upd s.docs name (some YDoc.new),
         upd s.meta name (some ⟨"Untitled Document", now, ∅⟩)⟩ := by
    unfold ensureDoc
    simp [hd, hm]
  have hState : (wsConnect s name cid now).2
      = ⟨upd s.docs name (some YDoc.new),
         upd (upd s.meta name (some ⟨"Untitled Document", now, ∅⟩)) name
           (some ⟨"Untitled Document", now, insert cid ∅⟩)⟩ := by
    show addCollaborator (ensureDoc s name now) name cid = _
    rw [hEnsure]
    simp [addCollaborator, upd]
  refine ⟨?_, ?_, ?_⟩
  · show ((wsConnect s name cid now).2.docs name).isSome = true
    rw [hState]
    simp [upd]
  · rw [hState]; simp [upd]
  · rw [hState]; simp [upd]

/-- Witness for C10 at the empty server state. -/
theorem ws_connect_creates_missing_doc_witness :
    (wsConnect initState "room" "c1" 4).1 = true
    ∧ ((wsConnect initState "room" "c1" 4).2).docs "room" = some YDoc.new
    ∧ ((wsConnect initState "room" "c1" 4).2).meta "room"
        = some ⟨"Untitled Document", 4, {"c1"}⟩ :=
  ws_connect_creates_missing_doc initState "room" "c1" 4 rfl rfl

/-- Claim C4: a WebSocket connection to an existing document raises the
reported collaborator count by exactly one, the matching close lowers it by
exactly one back to the prior metadata record, and neither event changes the
title (or the timestamp). -/
theorem collaborator_count_connect_close
    (s : ServerState) (name cid : String) (now : Nat) (y : YDoc) (m : Metadata)
    (hd : s.docs name = some y) (hm : s.meta name = some m)
    (hcid : cid ∉ m.collaborators) :
    (getDocument ((wsConnect s name cid now).2) name).1.info
        = some ⟨name, m.title, m.lastModified, m.collaborators.card + 1⟩
    ∧ (wsClose ((wsConnect s name cid now).2) name cid).meta name = some m
    ∧ (getDocument (wsClose ((wsConnect s name cid now).2) name cid) name).1.info
        = some ⟨name, m.title, m.lastModified, m.collaborators.card⟩ := by
  have hEnsure : ensureDoc s name now = s := by
    unfold ensureDoc
    simp [hd]
  have hMeta2 : ((wsConnect s name cid now).2).meta name
      = some ⟨m.title, m.lastModified, insert cid m.collaborators⟩ := by
    show (addCollaborator (ensureDoc s name now) name cid).meta name = _
    rw [hEnsure]
    simp [addCollaborator, hm, upd]
  have hCm : (wsClose ((wsConnect s name cid now).2) name cid).meta name
      = some m := by
    simp [wsClose, hMeta2, upd, Finset.erase_insert hcid]
  refine ⟨?_, hCm, ?_⟩
  · simp [getDocument, hMeta2, Finset.card_insert_of_not_mem hcid]
  · simp [getDocument, hCm]

/-- Witness for C4 on the sample state. -/
theorem collaborator_count_connect_close_witness :
    (getDocument ((wsConnect sampleState "doc1" "c1" 9).2) "doc1").1.info
        = some ⟨"doc1", "T", 5, (∅ : Finset String).card + 1⟩
    ∧ (wsClose ((wsConnect sampleState "doc1" "c1" 9).2) "doc1" "c1").meta "doc1"
        = some ⟨"T", 5, ∅⟩
    ∧ (getDocument
          (wsClose ((wsConnect sampleState "doc1" "c1" 9).2) "doc1" "c1")
          "doc1").1.info
        = some ⟨"doc1", "T", 5, (∅ : Finset String).card⟩ :=
  collaborator_count_connect_close sampleState "doc1" "c1" 9 YDoc.new
    ⟨"T", 5, ∅⟩ rfl rfl (by simp)

/-- The two maps hold exactly the same set of document identifiers. -/
def inSync (s : ServerState) : Prop :=
  ∀ i, (s.docs i).isSome ↔ (s.meta i).isSome

lemma ensureDoc_inSync (s : ServerState) (d : String) (n : Nat)
    (h : inSync s) : inSync (ensureDoc s d n) := by
  intro i
  unfold ensureDoc
  split
  case isTrue h1 => exact h i
  case isFalse h1 =>
    split
    case isTrue h2 =>
      by_cases hi : i = d
      · subst hi; simp [upd, h2]
      · simp [upd, hi, h i]
    case isFalse h2 =>
      by_cases hi : i = d
      · subst hi; simp [upd]
      · simp [upd, hi, h i]

lemma addCollaborator_inSync (s : ServerState) (d c : String)
    (h : inSync s) : inSync (addCollaborator s d c) := by
  intro i
  cases hsm : s.meta d with
  | none => simpa [addCollaborator, hsm] using h i
  | some mm =>
      by_cases hi : i = d
      · subst hi
        have hds : (s.docs i).isSome = true := (h i).mpr (by simp [hsm])
        simp [addCollaborator, hsm, upd, hds]
      · simp [addCollaborator, hsm, upd, hi, h i]

lemma wsClose_inSync (s : ServerState) (d c : String)
    (h : inSync s) : inSync (wsClose s d c) := by
  intro i
  cases hsm : s.meta d with
  | none => simpa [wsClose, hsm] using h i
  | some mm =>
      by_cases hi : i = d
      · subst hi
        have hds : (s.docs i).isSome = true := (h i).mpr (by simp [hsm])
        simp [wsClose, hsm, upd, hds]
      · simp [wsClose, hsm, upd, hi, h i]

lemma docUpdate_inSync (s : ServerState) (d : String) (n : Nat)
    (h : inSync s) : inSync (docUpdate s d n) := by
  intro i
  cases hsm : s.meta d with
  | none => simpa [docUpdate, hsm] using h i
  | some mm =>
      by_cases hi : i = d
      · subst hi
        have hds : (s.docs i).isSome = true := (h i).mpr (by simp [hsm])
        simp [docUpdate, hsm, upd, hds]
      · simp [docUpdate, hsm, upd, hi, h i]

lemma step_inSync (s : ServerState) (op : Op) (h : inSync s) :
    inSync (step s op) := by
  cases op with
  | post d t n =>
      intro i
      by_cases hi : i = d <;> simp [step, postDocument, upd, hi, h i]
  | getOne d =>
      intro i
      simpa [step, getDocument_state] using h i
  | putT d t n =>
      intro i
      cases hsm : s.meta d with
      | none => simpa [step, putTitle, hsm] using h i
      | some mm =>
          by_cases hi : i = d
          · subst hi
            have hds : (s.docs i).isSome = true := (h i).mpr (by simp [hsm])
            simp [step, putTitle, hsm, upd, hds]
          · simp [step, putTitle, hsm, upd, hi, h i]
  | del d =>
      intro i
      by_cases hd2 : (s.docs d).isSome
      · by_cases hi : i = d <;> simp [step, deleteDocument, hd2, upd, hi, h i]
      · simpa [step, deleteDocument, hd2] using h i
  | connect d c n =>
      exact addCollaborator_inSync _ _ _ (ensureDoc_inSync _ _ _ h)
  | close d c => exact wsClose_inSync _ _ _ h
  | update d n => exact docUpdate_inSync _ _ _ h

lemma applyOps_inSync (l : List Op) (s : ServerState) (h : inSync s) :
    inSync (l.foldl step s) := by
  induction l generalizing s with
  | nil => exact h
  | cons op t ih => exact ih _ (step_inSync s op h)

/-- Claim C9: after every sequence of REST operations and WebSocket
connection events from server start, the documents map and the
documentMetadata map hold exactly the same identifiers: a Y.Doc exists if
and only if a metadata record exists under that identifier. -/
theorem docs_meta_keys_agree (l : List Op) (i : String) :
    ((l.foldl step initState).docs i).isSome
      ↔ ((l.foldl step initState).meta i).isSome :=
  applyOps_inSync l initState (fun _ => by simp [initState]) i

/-! ### Presence channel and client presence list (C5, C6) -/

/-- The user field of an awareness state: display name and color. -/
structure UserInfo where
  name : String
  color : String
deriving DecidableEq

/-- The cursor field of an awareness state: the selection anchor. -/
structure CursorInfo where
  anchor : Nat
deriving DecidableEq

/-- One session's awareness state as read by the client: an optional user
record and an optional cursor record. -/
structure AwState where
  user : Option UserInfo
  cursor : Option CursorInfo
deriving DecidableEq

/-- One entry of the client's connected-users list. -/
structure ConnectedUser where
  name : String
  color : String
  cursor : Option Nat
deriving DecidableEq

/-- Point update of a key-value list, as performed by Map.set: the first
matching key is overwritten in place, otherwise the entry is appended. -/
def mapSet {α : Type} (l : List (Nat × α)) (k : Nat) (v : α) :
    List (Nat × α) :=
  if l.any (fun p => p.1 == k) then
    l.map (fun p => if p.1 == k then (k, v) else p)
  else l ++ [(k, v)]

/-- Modelled from the spec: publishing a presence record overwrites the
prior record held for that session (the awareness map lives in the
y-protocols library; the repository only reads it via getStates). -/
def publish (states : List (Nat × AwState)) (sid : Nat) (st : AwState) :
    List (Nat × AwState) :=
  mapSet states sid st

/-- Modelled from the spec: expiry of a session (disconnect or liveness
timeout) removes its record from the awareness map. -/
def expire (states : List (Nat × AwState)) (sid : Nat) :
    List (Nat × AwState) :=
  states.filter (fun p => p.1 != sid)

/-- One step of the client's awareness-change handler: a state carrying a
user record and not belonging to the local client is written into the users
map under its client identifier. -/
def addUser (selfId : Nat) (users : List (Nat × ConnectedUser))
    (p : Nat × AwState) : List (Nat × ConnectedUser) :=
  match p.2.user with
  | some u =>
      if p.1 ≠ selfId then
        mapSet users p.1 ⟨u.name, u.color, (p.2.cursor).map CursorInfo.anchor⟩
      else users
  | none => users

/-- The client's awareness-change handler: the users map is rebuilt from
scratch from exactly the currently live awareness states. -/
def rebuildUsers (states : List (Nat × AwState)) (selfId : Nat) :
    List (Nat × ConnectedUser) :=
  states.foldl (addUser selfId) []

lemma replace_keys_eq {α : Type} (l : List (Nat × α)) (k : Nat) (v : α) :
    (l.map (fun p => if p.1 == k then (k, v) else p)).map Prod.fst
      = l.map Prod.fst := by
  induction l with
  | nil => rfl
  | cons p t ih =>
      simp only [List.map_cons, ih]
      congr 1
      split
      next hh => exact (beq_iff_eq.mp hh).symm
      next hh => rfl

lemma mapSet_keys_nodup {α : Type} (l : List (Nat × α)) (k : Nat) (v : α)
    (h : (l.map Prod.fst).Nodup) : ((mapSet l k v).map Prod.fst).Nodup := by
  unfold mapSet
  split
  case isTrue hany => rw [replace_keys_eq]; exact h
  case isFalse hany =>
    rw [List.map_append, List.nodup_append]
    refine ⟨h, by simp, ?_⟩
    intro x hx hx2
    simp only [List.map_cons, List.map_nil, List.mem_singleton] at hx2
    subst hx2
    simp only [List.any_eq_true, beq_iff_eq, not_exists, not_and] at hany
    rw [List.mem_map] at hx
    obtain ⟨p, hp, hpk⟩ := hx
    exact hany p hp hpk

lemma mapSet_keys_mem {α : Type} (l : List (Nat × α)) (k : Nat) (v : α)
    (x : Nat) (hx : x ∈ (mapSet l k v).map Prod.fst) :
    x ∈ l.map Prod.fst ∨ x = k := by
  unfold mapSet at hx
  split at hx
  · rw [replace_keys_eq] at hx; exact Or.inl hx
  · rw [List.map_append] at hx
    rcases List.mem_append.mp hx with h1 | h2
    · exact Or.inl h1
    · simp only [List.map_cons, List.map_nil, List.mem_singleton] at h2
      exact Or.inr h2

lemma lookup_replace {α : Type} (l : List (Nat × α)) (k : Nat) (v : α)
    (h : l.any (fun p => p.1 == k) = true) :
    List.lookup k (l.map (fun p => if p.1 == k then (k, v) else p))
      = some v := by
  induction l with
  | nil => simp at h
  | cons p t ih =>
      obtain ⟨pk, pv⟩ := p
      simp only [List.map_cons]
      by_cases hp : (pk == k) = true
      · rw [if_pos hp]
        simp [List.lookup]
      · rw [if_neg hp]
        have hp2 : (pk == k) = false := by simpa using hp
        have ht : t.any (fun q => q.1 == k) = true := by
          simpa [List.any_cons, hp2] using h
        have hk2 : (k == pk) = false := by
          simp only [beq_eq_false_iff_ne] at hp2 ⊢
          exact fun hh => hp2 hh.symm
        simp only [List.lookup, hk2]
        exact ih ht

lemma lookup_append_missing {α : Type} (l : List (Nat × α)) (k : Nat) (v : α)
    (h : l.any (fun p => p.1 == k) = false) :
    List.lookup k (l ++ [(k, v)]) = some v := by
  induction l with
  | nil => simp [List.lookup]
  | cons p t ih =>
      simp only [List.any_cons, Bool.or_eq_false_iff] at h
      obtain ⟨hp, ht⟩ := h
      have hk2 : (k == p.1) = false := by
        simp only [beq_eq_false_iff_ne] at hp ⊢
        exact fun hh => hp hh.symm
      simp [List.cons_append, List.lookup, hk2, ih ht]

lemma lookup_mapSet {α : Type} (l : List (Nat × α)) (k : Nat) (v : α) :
    List.lookup k (mapSet l k v) = some v := by
  unfold mapSet
  split
  case isTrue hany => exact lookup_replace l k v hany
  case isFalse hany =>
    exact lookup_append_missing l k v
      (by simpa only [Bool.not_eq_true] using hany)

lemma lookup_eq_none_notkey {α : Type} (l : List (Nat × α)) (k : Nat)
    (h : ∀ p ∈ l, p.1 ≠ k) : List.lookup k l = none := by
  induction l with
  | nil => rfl
  | cons p t ih =>
      have hp := h p (by simp)
      have hk2 : (k == p.1) = false := by
        simp only [beq_eq_false_iff_ne]
        exact fun hh => hp hh.symm
      simp only [List.lookup, hk2]
      exact ih (fun q hq => h q (by simp [hq]))

lemma addUser_keys_nodup (selfId : Nat) (users : List (Nat × ConnectedUser))
    (p : Nat × AwState) (h : (users.map Prod.fst).Nodup) :
    ((addUser selfId users p).map Prod.fst).Nodup := by
  cases hu : p.2.user with
  | none => simpa [addUser, hu] using h
  | some u =>
      by_cases hps : p.1 ≠ selfId
      · simpa [addUser, hu, hps] using
          mapSet_keys_nodup users p.1
            ⟨u.name, u.color, (p.2.cursor).map CursorInfo.anchor⟩ h
      · simpa [addUser, hu, hps] using h

lemma foldl_addUser_nodup (states : List (Nat × AwState)) (selfId : Nat)
    (acc : List (Nat × ConnectedUser)) (h : (acc.map Prod.fst).Nodup) :
    ((states.foldl (addUser selfId) acc).map Prod.fst).Nodup := by
  induction states generalizing acc with
  | nil => exact h
  | cons p t ih => exact ih _ (addUser_keys_nodup selfId acc p h)

lemma addUser_keys_mem (selfId : Nat) (users : List (Nat × ConnectedUser))
    (p : Nat × AwState) (x : Nat)
    (hx : x ∈ (addUser selfId users p).map Prod.fst) :
    x ∈ users.map Prod.fst ∨ x = p.1 := by
  cases hu : p.2.user with
  | none => rw [addUser, hu] at hx; exact Or.inl hx
  | some u =>
      by_cases hps : p.1 ≠ selfId
      · have hx2 : x ∈ (mapSet users p.1
            ⟨u.name, u.color, (p.2.cursor).map CursorInfo.anchor⟩).map
              Prod.fst := by
          simpa [addUser, hu, hps] using hx
        exact mapSet_keys_mem users p.1 _ x hx2
      · refine Or.inl ?_
        simpa [addUser, hu, hps] using hx

lemma foldl_addUser_mem (states : List (Nat × AwState)) (selfId : Nat)
    (acc : List (Nat × ConnectedUser)) (x : Nat)
    (hx : x ∈ ((states.foldl (addUser selfId) acc).map Prod.fst)) :
    x ∈ acc.map Prod.fst ∨ x ∈ states.map Prod.fst := by
  induction states generalizing acc with
  | nil => exact Or.inl hx
  | cons p t ih =>
      rcases ih (addUser selfId acc p) hx with h1 | h2
      · rcases addUser_keys_mem selfId acc p x h1 with h3 | h4
        · exact Or.inl h3
        · exact Or.inr (by simp [h4])
      · exact Or.inr (by simp [h2])

/-- Claim C5: publishing a presence record overwrites the prior record for
that session, never duplicating it, and the observer's rebuilt presence
list carries at most one entry per session identifier. -/
theorem presence_publish_overwrites
    (states : List (Nat × AwState)) (sid selfId : Nat) (st : AwState)
    (h : (states.map Prod.fst).Nodup) :
    ((publish states sid st).map Prod.fst).Nodup
    ∧ List.lookup sid (publish states sid st) = some st
    ∧ ((rebuildUsers states selfId).map Prod.fst).Nodup :=
  ⟨mapSet_keys_nodup states sid st h, lookup_mapSet states sid st,
   foldl_addUser_nodup states selfId [] (by simp)⟩

/-- Two live sessions, used as concrete awareness input. -/
def awEx : List (Nat × AwState) :=
  [(1, ⟨some ⟨"Ann", "red"⟩, some ⟨3⟩⟩), (2, ⟨some ⟨"Bob", "blue"⟩, none⟩)]

/-- A refreshed record for session 1. -/
def awRec : AwState := ⟨some ⟨"Ann", "green"⟩, some ⟨7⟩⟩

/-- Witness for C5 on concrete awareness states. -/
theorem presence_publish_overwrites_witness :
    ((publish awEx 1 awRec).map Prod.fst).Nodup
    ∧ List.lookup 1 (publish awEx 1 awRec) = some awRec
    ∧ ((rebuildUsers awEx 0).map Prod.fst).Nodup :=
  presence_publish_overwrites awEx 1 0 awRec (by decide)

/-- Claim C6: a session removed from the live awareness states (expiry on
disconnect or liveness timeout) is absent from every observer's rebuilt
presence list: the list is rebuilt from exactly the live states, so every
listed identifier is a live identifier distinct from the expired one. -/
theorem presence_expiry_absent
    (states : List (Nat × AwState)) (sid selfId cid : Nat)
    (h : cid ∈ (rebuildUsers (expire states sid) selfId).map Prod.fst) :
    cid ≠ sid
    ∧ List.lookup sid (expire states sid) = none
    ∧ cid ∈ states.map Prod.fst := by
  have hmem : cid ∈ (expire states sid).map Prod.fst := by
    rcases foldl_addUser_mem (expire states sid) selfId [] cid h with h1 | h2
    · simp at h1
    · exact h2
  rw [List.mem_map] at hmem
  obtain ⟨p, hp, hpk⟩ := hmem
  refine ⟨?_, ?_, ?_⟩
  · have hf := List.of_mem_filter hp
    simp only [bne_iff_ne, ne_eq] at hf
    rw [← hpk]
    exact hf
  · apply lookup_eq_none_notkey
    intro q hq
    have hf := List.of_mem_filter hq
    simpa using hf
  · rw [List.mem_map]
    exact ⟨p, List.mem_of_mem_filter hp, hpk⟩

/-- Witness for C6: session 2 expires; session 1 remains listed, session 2
is gone from the awareness map. -/
theorem presence_expiry_absent_witness :
    (1 : Nat) ≠ 2
    ∧ List.lookup 2 (expire awEx 2) = none
    ∧ (1 : Nat) ∈ awEx.map Prod.fst :=
  presence_expiry_absent awEx 2 0 1 (by decide)

/-! ### Inbound record handling on a connection (C7) -/

/-- A structurally decoded inbound record: a content delta or a presence
record. -/
inductive InboundRec
  | delta (r : UpdateRecord)
  | presence (sid : Nat) (st : AwState)

/-- Modelled from the spec: structural parse of the item section of a delta
payload; six naturals per item (replica, counter, origin flag, origin
replica, origin counter, content), rejecting any other shape. -/
def parseItems : List Nat → Option (List Item)
  | [] => some []
  | r :: c :: ho :: orr :: oc :: ct :: rest =>
      if ho ≤ 1 then
        (parseItems rest).map (fun l =>
          ⟨(r, c), if ho = 1 then some (orr, oc) else none, ct⟩ :: l)
      else none
  | _ => none

/-- Modelled from the spec: structural decoding of one inbound message of
the sync or awareness protocol (implemented inside y-websocket, of which the
repository holds only the module declaration).  Tag 0 carries a delta, tag 1
a presence record; anything else is malformed. -/
def decodeRecord : List Nat → Option InboundRec
  | [] => none
  | 0 :: payload =>
      (parseItems payload).map (fun items => InboundRec.delta ⟨items.toFinset, ∅⟩)
  | 1 :: [sid, nm, col, hasCur, cur] =>
      if hasCur ≤ 1 then
        some (InboundRec.presence sid
          ⟨some ⟨toString nm, toString col⟩,
           if hasCur = 1 then some ⟨cur⟩ else none⟩)
      else none
  | _ => none

/-- The state of one WebSocket connection: whether it is open and its log. -/
structure Conn where
  isOpen : Bool
  log : List String

/-- Modelled from the spec: processing one inbound message on a connection.
A record that fails structural decoding is discarded and logged only; a
decoded delta is merged into the store, a decoded presence record is
published to the awareness states. -/
def handleInbound (conn : Conn) (store : Store)
    (aw : List (Nat × AwState)) (bytes : List Nat) :
    Conn × Store × List (Nat × AwState) :=
  match decodeRecord bytes with
  | none =>
      (⟨conn.isOpen, conn.log ++ ["malformed record discarded"]⟩, store, aw)
  | some (InboundRec.delta r) => (conn, applyRemote store r, aw)
  | some (InboundRec.presence sid st) => (conn, store, publish aw sid st)

/-- Claim C7: an inbound delta or presence record that fails structural
decoding is discarded and logged, the store and awareness states are
untouched, and the connection that carried it keeps its open state. -/
theorem malformed_record_discarded
    (conn : Conn) (store : Store) (aw : List (Nat × AwState))
    (bytes : List Nat) (h : decodeRecord bytes = none) :
    (handleInbound conn store aw bytes).1.isOpen = conn.isOpen
    ∧ (handleInbound conn store aw bytes).2.1 = store
    ∧ (handleInbound conn store aw bytes).2.2 = aw
    ∧ (handleInbound conn store aw bytes).1.log
        = conn.log ++ ["malformed record discarded"] := by
  simp [handleInbound, h]

/-- Witness for C7: an unknown tag on an open connection is dropped without
closing the connection or touching the store. -/
theorem malformed_record_discarded_witness :
    (handleInbound ⟨true, []⟩ Store.emptyStore awEx [5]).1.isOpen
        = Conn.isOpen ⟨true, []⟩
    ∧ (handleInbound ⟨true, []⟩ Store.emptyStore awEx [5]).2.1
        = Store.emptyStore
    ∧ (handleInbound ⟨true, []⟩ Store.emptyStore awEx [5]).2.2 = awEx
    ∧ (handleInbound ⟨true, []⟩ Store.emptyStore awEx [5]).1.log
        = Conn.log ⟨true, []⟩ ++ ["malformed record discarded"] :=
  malformed_record_discarded ⟨true, []⟩ Store.emptyStore awEx [5] rfl
